import Mathlib

set_option maxRecDepth 40000

/-!
Shallow embedding of `certs.go` from the concert repository.

Go strings are modelled as lists of characters (`Str`).  Go's `len` on a
string counts UTF-8 bytes, which `goLen` reproduces via `Char.utf8Size`.
The external collaborators (the filesystem, the RSA key generator, and the
acme client library) are modelled as environments supplying the outcome of
each call; the orchestrators additionally record the sequence of
collaborator calls they perform as a list of `Event`s, so that properties
such as "no network call is made" are expressible.
-/

namespace Concert

/-- Go strings, modelled as lists of characters. -/
abbrev Str := List Char

/-- Go `len` on a string: the number of UTF-8 bytes. -/
def goLen (s : Str) : Nat := (s.map Char.utf8Size).sum

/-- Whitespace recognised by Go `unicode.IsSpace` (the Latin-1 range it
lists explicitly: tab, newline, vertical tab, form feed, carriage return,
space, next-line, and no-break space; astral space characters are not
modelled). -/
def isGoSpace (c : Char) : Bool :=
  c = ' ' || c = '\t' || c = '\n' || c = Char.ofNat 11 || c = Char.ofNat 12 ||
    c = '\r' || c = Char.ofNat 133 || c = Char.ofNat 160

/-- Go `strings.TrimSpace`: drop leading and trailing whitespace. -/
def goTrimSpace (s : Str) : Str :=
  ((s.dropWhile isGoSpace).reverse.dropWhile isGoSpace).reverse

/-- The forbidden characters from `certs.go` line 65, written by code point:
backtick ~ ! @ # $ % ^ & * ( ) + = curly braces [ ] | backslash
double-quote single-quote ; : > < ? /  -/
def forbiddenHostChars : Str :=
  [96, 126, 33, 64, 35, 36, 37, 94, 38, 42, 40, 41, 43, 61, 123, 125,
    91, 93, 124, 92, 34, 39, 59, 58, 62, 60, 63, 47].map Char.ofNat

/-- Go `strings.ContainsAny s chars`: does `s` contain any character from
`chars`? -/
def containsAny (s chars : Str) : Bool := s.any (fun c => chars.contains c)

/-- `isValidDomain` from `certs.go` lines 46-71.  The first/last byte
comparisons of the Go code (`host[:1] == "-"` and the like) are modelled by
first/last character comparisons; the compared characters are all ASCII, so
a multi-byte leading or trailing character fails both the byte and the
character comparison and the two readings agree on every input. -/
def isValidDomain (host0 : Str) : Bool :=
  let host := goTrimSpace host0
  if goLen host = 0 ∨ 255 < goLen host then false
  else if host.getLast? = some '-' ∨ host.head? = some '-' then false
  else if host.getLast? = some '_' ∨ host.head? = some '_' then false
  else if host.getLast? = some '.' ∨ host.head? = some '.' then false
  else if containsAny host forbiddenHostChars then false
  else true

/-- The validity predicate exactly as the specification words it — a
refinement reference written from the spec, not from the source: trim,
then reject the empty string, a string longer than 255 characters, a
leading or trailing dash, underscore or dot, or any forbidden character;
accept otherwise. -/
def specIsValidDomain (host0 : Str) : Bool :=
  let host := goTrimSpace host0
  if host = [] ∨ 255 < host.length ∨
      host.head? = some '-' ∨ host.getLast? = some '-' ∨
      host.head? = some '_' ∨ host.getLast? = some '_' ∨
      host.head? = some '.' ∨ host.getLast? = some '.' ∨
      containsAny host forbiddenHostChars = true
    then false else true

/-- Go `strings.Split s sep` for a single-character separator: splitting
the empty string yields one empty field, and every separator occurrence
starts a new field. -/
def goSplit (sep : Char) : Str → List Str
  | [] => [[]]
  | c :: cs =>
    if c = sep then [] :: goSplit sep cs
    else
      match goSplit sep cs with
      | [] => [[c]]
      | t :: ts => (c :: t) :: ts

/-- `isSubDomain` from `certs.go` lines 74-78. -/
def isSubDomain (domain : Str) : Bool :=
  let domainParts := goSplit '.' domain
  decide (domainParts.length > 2)

/-- The domain set built by `genCerts` (`certs.go` lines 117-122): the
primary domain, extended with `sub + "." + domain` for each configured
subdomain unless the primary is itself a subdomain. -/
def buildDomains (domain : Str) (subDomains : List Str) : List Str :=
  if !isSubDomain domain then
    domain :: subDomains.map (fun s => s ++ '.' :: domain)
  else
    [domain]

/-- Nanoseconds per hour (Go `time.Duration` counts nanoseconds). -/
def nsPerHour : Int := 3600 * 1000000000

/-- Nanoseconds per day. -/
def nsPerDay : Int := 24 * nsPerHour

/-- Largest Go `time.Duration` (int64 nanoseconds). -/
def maxDuration : Int := 2 ^ 63 - 1

/-- Smallest Go `time.Duration`. -/
def minDuration : Int := -(2 ^ 63)

/-- Go `t.Sub u`: the difference of two instants, saturated to the
`time.Duration` (int64) range as documented for `time.Time.Sub`. -/
def timeSub (t u : Int) : Int := max minDuration (min maxDuration (t - u))

/-- The day count computed at `certs.go` line 149:
`int(expTime.Sub(time.Now()).Hours() / 24.0)`, i.e. the elapsed duration
converted to days and truncated toward zero, modelled in exact integer
arithmetic (`Int.tdiv` truncates toward zero, as Go's float-to-int
conversion does). -/
def expDaysOf (expTime now : Int) : Int := Int.tdiv (timeSub expTime now) nsPerDay

/-- `renewDaysLimit` from `certs.go` line 34. -/
def renewDaysLimit : Int := 45

/-- `acme.CertificateResource` (the fields of the lego resource; the Go
code reads and writes only `Certificate` and `PrivateKey`). -/
structure CertificateResource where
  domain : Str
  certURL : Str
  certStableURL : Str
  accountRef : Str
  privateKey : Str
  certificate : Str
  csr : Str
deriving DecidableEq, Repr

/-- Error values returned by the collaborators or built by the Go code
itself.  `policy` is the error built at `certs.go` line 151 and carries the
day count interpolated into its message; `obtainFailure` is the aggregate
error built at line 135 and carries the failed-domain and cause lists
interpolated into its message. -/
inductive GoErr where
  | readFailure (msg : Str)
  | parseFailure (msg : Str)
  | keyGenFailure (msg : Str)
  | clientFailure (msg : Str)
  | registerFailure (msg : Str)
  | agreeFailure (msg : Str)
  | policy (daysLeft : Int)
  | obtainFailure (failedDomains : List Str) (failedCauses : List Str)
  | renewFailure (msg : Str)
  | writeFailure (msg : Str)
  | marshalFailure (msg : Str)
deriving DecidableEq, Repr

/-- The acme challenge kinds of the lego library. -/
inductive Challenge where
  | http01
  | tlssni01
  | dns01
deriving DecidableEq, Repr

/-- One collaborator call made by an orchestrator. -/
inductive Event where
  | loadCertFile
  | getPEMExpiration (certBytes : Str)
  | genKey (bits : Nat)
  | newClient (keyType : Nat)
  | excludeChallenges (excluded : List Challenge)
  | register
  | agreeToTOS
  | obtainCertificate (domains : List Str) (bundle : Bool)
  | loadCertMetaFile
  | renewCertificate (meta : CertificateResource) (bundle : Bool)
deriving DecidableEq, Repr

/-- Environment for `genCerts`: the outcome of each collaborator call.
`obtainResult` yields the new resource together with the per-domain
failure map (modelled as an association list from failed domain to the
message of its cause, the pairing the Go `map[string]error` holds). -/
structure GenEnv where
  genKeyResult : Except GoErr Nat
  newClientResult : Except GoErr Unit
  registerResult : Except GoErr Nat
  agreeResult : Except GoErr Unit
  obtainResult : List Str → Bool → CertificateResource × List (Str × Str)

/-- `genCerts` from `certs.go` lines 81-139, returning the Go result
together with the trace of collaborator calls. -/
def genCerts (env : GenEnv) (email domain : Str) (subDomains : List Str) :
    Except GoErr CertificateResource × List Event :=
  match env.genKeyResult with
  | .error e => (.error e, [Event.genKey 2048])
  | .ok _privateKey =>
    match env.newClientResult with
    | .error e => (.error e, [Event.genKey 2048, Event.newClient 2048])
    | .ok _ =>
      match env.registerResult with
      | .error e =>
        (.error e,
          [Event.genKey 2048, Event.newClient 2048,
            Event.excludeChallenges [Challenge.dns01], Event.register])
      | .ok _reg =>
        match env.agreeResult with
        | .error e =>
          (.error e,
            [Event.genKey 2048, Event.newClient 2048,
              Event.excludeChallenges [Challenge.dns01], Event.register,
              Event.agreeToTOS])
        | .ok _ =>
          let domains := buildDomains domain subDomains
          match env.obtainResult domains true with
          | (newCertificates, failures) =>
            if failures.length > 0 then
              (.error (.obtainFailure (failures.map Prod.fst) (failures.map Prod.snd)),
                [Event.genKey 2048, Event.newClient 2048,
                  Event.excludeChallenges [Challenge.dns01], Event.register,
                  Event.agreeToTOS, Event.obtainCertificate domains true])
            else
              (.ok newCertificates,
                [Event.genKey 2048, Event.newClient 2048,
                  Event.excludeChallenges [Challenge.dns01], Event.register,
                  Event.agreeToTOS, Event.obtainCertificate domains true])

/-- Environment for `renewCerts`.  `pemExp` is the outcome of
`acme.GetPEMCertExpiration`; when it fails the library returns the zero
`time.Time`, modelled as the instant `0`. -/
structure RenewEnv where
  loadCertResult : Except GoErr Str
  pemExp : Str → Except GoErr Int
  now : Int
  genKeyResult : Except GoErr Nat
  newClientResult : Except GoErr Unit
  loadCertMetaResult : Except GoErr CertificateResource
  renewResult : CertificateResource → Bool → Except GoErr CertificateResource

/-- `renewCerts` from `certs.go` lines 142-191, returning the Go result
together with the trace of collaborator calls.  Note that the source drops
the error returned by `acme.GetPEMCertExpiration` (line 148 assigns it to
`err`, which is never inspected before being overwritten at line 156), so
the expiry below falls back to the zero instant when parsing fails, exactly
as the Go code does. -/
def renewCerts (env : RenewEnv) : Except GoErr CertificateResource × List Event :=
  match env.loadCertResult with
  | .error e => (.error e, [Event.loadCertFile])
  | .ok certBytes =>
    let expTime : Int :=
      match env.pemExp certBytes with
      | .ok t => t
      | .error _ => 0
    let expTimeDays : Int := expDaysOf expTime env.now
    if renewDaysLimit < expTimeDays then
      (.error (.policy expTimeDays),
        [Event.loadCertFile, Event.getPEMExpiration certBytes])
    else
      match env.genKeyResult with
      | .error e =>
        (.error e,
          [Event.loadCertFile, Event.getPEMExpiration certBytes, Event.genKey 2048])
      | .ok _privateKey =>
        match env.newClientResult with
        | .error e =>
          (.error e,
            [Event.loadCertFile, Event.getPEMExpiration certBytes,
              Event.genKey 2048, Event.newClient 2048])
        | .ok _ =>
          match env.loadCertMetaResult with
          | .error e =>
            (.error e,
              [Event.loadCertFile, Event.getPEMExpiration certBytes,
                Event.genKey 2048, Event.newClient 2048,
                Event.excludeChallenges [Challenge.dns01], Event.loadCertMetaFile])
          | .ok certMeta0 =>
            let certMeta := { certMeta0 with certificate := certBytes }
            match env.renewResult certMeta true with
            | .error e =>
              (.error e,
                [Event.loadCertFile, Event.getPEMExpiration certBytes,
                  Event.genKey 2048, Event.newClient 2048,
                  Event.excludeChallenges [Challenge.dns01], Event.loadCertMetaFile,
                  Event.renewCertificate certMeta true])
            | .ok newCertificates =>
              (.ok newCertificates,
                [Event.loadCertFile, Event.getPEMExpiration certBytes,
                  Event.genKey 2048, Event.newClient 2048,
                  Event.excludeChallenges [Challenge.dns01], Event.loadCertMetaFile,
                  Event.renewCertificate certMeta true])

/-- The on-disk state of one certificate directory: an association list
from file name to content and permission bits. -/
abbrev FileSys := List (Str × (Str × Nat))

/-- Store or replace a file. -/
def fsWrite (fs : FileSys) (path content : Str) (perm : Nat) : FileSys :=
  match fs with
  | [] => [(path, (content, perm))]
  | (p, v) :: rest =>
    if p = path then (p, (content, perm)) :: rest
    else (p, v) :: fsWrite rest path content perm

/-- Look a file up. -/
def fsRead (fs : FileSys) (path : Str) : Option (Str × Nat) :=
  match fs with
  | [] => none
  | (p, v) :: rest => if p = path then some v else fsRead rest path

/-- The certificate-bytes file name used at `certs.go` lines 209 and 216. -/
def publicCrtFile : Str := ("public.crt").data

/-- The private-key file name used at `certs.go` line 222. -/
def privateKeyFile : Str := ("private.key").data

/-- The metadata file name used at `certs.go` lines 195 and 233. -/
def certsJsonFile : Str := ("certs.json").data

/-- Environment for `saveCerts`: which writes fail, and the outcome of
`json.MarshalIndent`. -/
structure SaveEnv where
  writeOutcome : Str → Option GoErr
  marshalIndent : CertificateResource → Except GoErr Str

/-- Go `ioutil.WriteFile` under a `SaveEnv`: on success the file is stored
with the given permissions, on failure the filesystem is unchanged. -/
def writeFile (env : SaveEnv) (fs : FileSys) (path content : Str) (perm : Nat) :
    Except GoErr Unit × FileSys :=
  match env.writeOutcome path with
  | some e => (.error e, fs)
  | none => (.ok (), fsWrite fs path content perm)

/-- `saveCerts` from `certs.go` lines 214-240: write the certificate
bytes, then the private key, then the marshalled metadata, each with
permission `0o600`, stopping at the first failure. -/
def saveCerts (env : SaveEnv) (fs : FileSys) (cert : CertificateResource) :
    Except GoErr Unit × FileSys :=
  match writeFile env fs publicCrtFile cert.certificate 0o600 with
  | (.error e, fs1) => (.error e, fs1)
  | (.ok _, fs1) =>
    match writeFile env fs1 privateKeyFile cert.privateKey 0o600 with
    | (.error e, fs2) => (.error e, fs2)
    | (.ok _, fs2) =>
      match env.marshalIndent cert with
      | .error e => (.error e, fs2)
      | .ok jsonBytes =>
        match writeFile env fs2 certsJsonFile jsonBytes 0o600 with
        | (.error e, fs3) => (.error e, fs3)
        | (.ok _, fs3) => (.ok (), fs3)

/-- Join a list of strings with single spaces, as Go `fmt` renders a
string slice between its brackets. -/
def joinSpaceSep : List Str → Str
  | [] => []
  | [s] => s
  | s :: rest => s ++ ' ' :: joinSpaceSep rest

/-- Go `fmt`'s `%s` rendering of a string slice: the elements joined by
spaces between square brackets. -/
def goShowStrList (xs : List Str) : Str := '[' :: (joinSpaceSep xs ++ [']'])

/-- The message of the aggregate error built by `fmt.Errorf` at
`certs.go` line 135, with the failed-domain list and the cause list
interpolated. -/
def obtainMessage (ds es : List Str) : Str :=
  ("Failed to obtain certificates for Domains: ").data ++ goShowStrList ds ++
    ((", with following errors ").data ++ (goShowStrList es ++ (" respectively.").data))

/-- A certificate resource with all fields empty. -/
def emptyRes : CertificateResource := ⟨[], [], [], [], [], [], []⟩

/-- A stored metadata resource naming `example.com` and holding stale
certificate bytes. -/
def metaRes : CertificateResource :=
  { emptyRes with domain := ("example.com").data, certificate := ("OLD").data }

/-- The resource handed back by a successful issuance or renewal. -/
def renewedRes : CertificateResource :=
  { emptyRes with domain := ("example.com").data, certificate := ("NEW").data }

/-- A renewal environment whose stored certificate expires at `expNs`
nanoseconds and whose collaborators all succeed; the current instant is
`0`. -/
def renewEnvAt (expNs : Int) : RenewEnv where
  loadCertResult := .ok (("CERTPEM").data)
  pemExp := fun _ => .ok expNs
  now := 0
  genKeyResult := .ok 1
  newClientResult := .ok ()
  loadCertMetaResult := .ok metaRes
  renewResult := fun _ _ => .ok renewedRes

/-- A renewal environment whose stored bytes fail PEM parsing, with the
current instant at 2016-01-01 (about `6.36e19` nanoseconds after the zero
instant; the lego library reports the zero time together with the parse
error). -/
def parseFailEnv : RenewEnv where
  loadCertResult := .ok (("NOTAPEM").data)
  pemExp := fun _ => .error (.parseFailure (("invalid PEM data").data))
  now := 63587289600000000000
  genKeyResult := .ok 1
  newClientResult := .ok ()
  loadCertMetaResult := .ok metaRes
  renewResult := fun _ _ => .ok renewedRes

/-- An issuance environment where every step succeeds and every domain
validates. -/
def genOkEnv : GenEnv where
  genKeyResult := .ok 1
  newClientResult := .ok ()
  registerResult := .ok 7
  agreeResult := .ok ()
  obtainResult := fun _ _ => (renewedRes, [])

/-- An issuance environment where two of the three requested domains fail
challenge validation. -/
def genFailEnv : GenEnv where
  genKeyResult := .ok 1
  newClientResult := .ok ()
  registerResult := .ok 7
  agreeResult := .ok ()
  obtainResult := fun _ _ =>
    (emptyRes,
      [(("www.example.com").data, ("challenge timed out").data),
        (("api.example.com").data, ("connection refused").data)])

/-- A persistence environment where every write succeeds. -/
def saveOkEnv : SaveEnv where
  writeOutcome := fun _ => none
  marshalIndent := fun _ => .ok (("jsonmeta").data)

/-- A persistence environment where the metadata write fails (disk full)
after the certificate and key writes succeeded. -/
def diskFullEnv : SaveEnv where
  writeOutcome := fun p =>
    if p = certsJsonFile then some (.writeFailure (("disk full").data)) else none
  marshalIndent := fun _ => .ok (("jsonmeta").data)

/-- A directory that already holds an old metadata file. -/
def oldFs : FileSys := [(certsJsonFile, (("oldmeta").data, 384))]

/-- The resource being persisted in the `saveCerts` scenarios. -/
def saveRes : CertificateResource :=
  { emptyRes with certificate := ("CERT").data, privateKey := ("KEY").data }

/-! Shared helper lemmas. -/

/-- A string has UTF-8 byte length zero exactly when it is empty. -/
theorem goLen_eq_zero (s : Str) : goLen s = 0 ↔ s = [] := by
  cases s with
  | nil => simp [goLen]
  | cons c cs =>
    have := Char.utf8Size_pos c
    simp [goLen]
    omega

/-- Splitting never produces an empty field list. -/
theorem goSplit_ne_nil (sep : Char) (s : Str) : goSplit sep s ≠ [] := by
  cases s with
  | nil => simp [goSplit]
  | cons c cs =>
    unfold goSplit
    by_cases h : c = sep
    · simp [h]
    · simp only [h, if_false]
      cases hg : goSplit sep cs <;> simp

/-- The number of fields produced by splitting is the separator count plus
one. -/
theorem goSplit_length (sep : Char) (s : Str) :
    (goSplit sep s).length = s.count sep + 1 := by
  induction s with
  | nil => simp [goSplit]
  | cons c cs ih =>
    unfold goSplit
    by_cases h : c = sep
    · simp [h, List.count_cons, ih]
    · simp only [if_neg h]
      cases hg : goSplit sep cs with
      | nil => exact absurd hg (goSplit_ne_nil sep cs)
      | cons t ts =>
        rw [hg] at ih
        simp only [List.length_cons] at ih
        simp [List.count_cons, h]
        omega

/-- If the policy gate refuses, `renewCerts` stops after the two local
steps with the policy error carrying the computed day count. -/
theorem renewCerts_refuses (env : RenewEnv) (certBytes : Str) (t : Int)
    (hload : env.loadCertResult = .ok certBytes)
    (hexp : env.pemExp certBytes = .ok t)
    (hgt : renewDaysLimit < expDaysOf t env.now) :
    renewCerts env =
      (.error (.policy (expDaysOf t env.now)),
        [Event.loadCertFile, Event.getPEMExpiration certBytes]) := by
  unfold renewCerts
  rw [hload]
  simp only [hexp]
  rw [if_pos hgt]

/-- If the policy gate passes, key generation is attempted, and neither
registration nor agreement acceptance ever appears in the trace. -/
theorem renewCerts_proceeds (env : RenewEnv) (certBytes : Str) (t : Int)
    (hload : env.loadCertResult = .ok certBytes)
    (hexp : env.pemExp certBytes = .ok t)
    (hle : expDaysOf t env.now ≤ renewDaysLimit) :
    Event.genKey 2048 ∈ (renewCerts env).2 ∧
      Event.register ∉ (renewCerts env).2 ∧
      Event.agreeToTOS ∉ (renewCerts env).2 := by
  unfold renewCerts
  rw [hload]
  simp only [hexp]
  rw [if_neg (not_lt.mpr hle)]
  rcases hk : env.genKeyResult with e | k
  · simp
  · rcases hc : env.newClientResult with e | u
    · simp
    · rcases hm : env.loadCertMetaResult with e | m
      · simp
      · rcases hr : env.renewResult { m with certificate := certBytes } true with e | r <;>
          simp [hr]

/-- If the policy gate passes and key generation, client construction and
the metadata load succeed, the full collaborator trace of `renewCerts` is
key generation, client construction, challenge exclusion, metadata load,
and the bundled renewal request on the metadata whose certificate bytes
were overwritten with the loaded ones. -/
theorem renewCerts_exchange_trace (env : RenewEnv) (certBytes : Str) (t : Int)
    (k : Nat) (m : CertificateResource)
    (hload : env.loadCertResult = .ok certBytes)
    (hexp : env.pemExp certBytes = .ok t)
    (hle : expDaysOf t env.now ≤ renewDaysLimit)
    (hkey : env.genKeyResult = .ok k)
    (hcli : env.newClientResult = .ok ())
    (hmeta : env.loadCertMetaResult = .ok m) :
    (renewCerts env).2 =
      [Event.loadCertFile, Event.getPEMExpiration certBytes, Event.genKey 2048,
        Event.newClient 2048, Event.excludeChallenges [Challenge.dns01],
        Event.loadCertMetaFile,
        Event.renewCertificate { m with certificate := certBytes } true] := by
  unfold renewCerts
  rw [hload]
  simp only [hexp]
  rw [if_neg (not_lt.mpr hle)]
  simp only [hkey, hcli, hmeta]
  rcases hr : env.renewResult { m with certificate := certBytes } true with e | r <;>
    simp [hr]

/-- Reading back the file just written. -/
theorem fsRead_fsWrite_same (fs : FileSys) (p c : Str) (m : Nat) :
    fsRead (fsWrite fs p c m) p = some (c, m) := by
  induction fs with
  | nil => simp [fsWrite, fsRead]
  | cons kv rest ih =>
    obtain ⟨q, v⟩ := kv
    by_cases h : q = p <;> simp [fsWrite, fsRead, h, ih]

/-- Writing one file leaves every other file unchanged. -/
theorem fsRead_fsWrite_other (fs : FileSys) (p q c : Str) (m : Nat)
    (h : q ≠ p) : fsRead (fsWrite fs p c m) q = fsRead fs q := by
  induction fs with
  | nil => simp [fsWrite, fsRead, Ne.symm h]
  | cons kv rest ih =>
    obtain ⟨r, v⟩ := kv
    by_cases hr : r = p
    · subst hr
      simp [fsWrite, fsRead, Ne.symm h]
    · simp [fsWrite, fsRead, hr, ih]

/-- An infix stays an infix under surrounding material. -/
theorem infix_wrap {l m : Str} (a b : Str) (h : l <:+: m) : l <:+: a ++ m ++ b :=
  h.trans (List.infix_append a m b)

/-- An infix stays an infix with material prepended. -/
theorem infix_append_left {l m : Str} (a : Str) (h : l <:+: m) : l <:+: a ++ m := by
  have h2 := infix_wrap a [] h
  simpa using h2

/-- Every element of a space-joined list is an infix of the join. -/
theorem infix_joinSpaceSep {s : Str} {xs : List Str} (h : s ∈ xs) :
    s <:+: joinSpaceSep xs := by
  induction xs with
  | nil => cases h
  | cons x rest ih =>
    cases rest with
    | nil =>
      simp only [List.mem_singleton] at h
      subst h
      simp [joinSpaceSep]
    | cons y ys =>
      rcases List.mem_cons.mp h with rfl | hm
      · have : s <:+: s ++ (' ' :: joinSpaceSep (y :: ys)) :=
          (List.prefix_append s _).isInfix
        simpa [joinSpaceSep] using this
      · have h2 := infix_append_left (x ++ [' ']) (ih hm)
        simpa [joinSpaceSep, List.append_assoc] using h2

/-- Every listed string is an infix of the `%s` rendering of the list. -/
theorem infix_goShowStrList {s : Str} {xs : List Str} (h : s ∈ xs) :
    s <:+: goShowStrList xs := by
  have h2 := infix_wrap ['['] [']'] (infix_joinSpaceSep h)
  simpa [goShowStrList, List.append_assoc] using h2

/-- Every failed domain appears in the aggregate error message. -/
theorem infix_obtainMessage_domain {s : Str} {ds es : List Str} (h : s ∈ ds) :
    s <:+: obtainMessage ds es :=
  infix_wrap _ _ (infix_goShowStrList h)

/-- Every failure cause appears in the aggregate error message. -/
theorem infix_obtainMessage_cause {s : Str} {ds es : List Str} (h : s ∈ es) :
    s <:+: obtainMessage ds es := by
  have h2 := infix_wrap ((", with following errors ").data) ((" respectively.").data)
    (infix_goShowStrList h)
  have h3 := infix_append_left
    ((("Failed to obtain certificates for Domains: ").data) ++ goShowStrList ds) h2
  simpa [obtainMessage, List.append_assoc] using h3

/-- A duration strictly between 45 and 46 days truncates to 45 days. -/
theorem expDaysOf_between (t now : Int)
    (h1 : 45 * nsPerDay < timeSub t now) (h2 : timeSub t now < 46 * nsPerDay) :
    expDaysOf t now = 45 := by
  have hd : nsPerDay = 86400000000000 := by norm_num [nsPerDay, nsPerHour]
  rw [hd] at h1 h2
  have h0 : 0 ≤ timeSub t now := by omega
  unfold expDaysOf
  rw [Int.tdiv_eq_ediv h0 (by rw [hd]; norm_num), hd]
  omega

/-! Claim theorems. -/

/-- C3: if the loaded certificate's computed days-until-expiry exceeds the
45-day limit, `renewCerts` returns the policy error carrying the remaining
day count and its trace stops at the two local steps — no key generation,
no client construction, no CA exchange; if the day count is 45 or fewer,
it proceeds to the protocol exchange, beginning with key generation. -/
theorem renewCerts_policy_gate (env : RenewEnv) (certBytes : Str) (t : Int)
    (hload : env.loadCertResult = .ok certBytes)
    (hexp : env.pemExp certBytes = .ok t) :
    (renewDaysLimit < expDaysOf t env.now →
      renewCerts env =
        (.error (.policy (expDaysOf t env.now)),
          [Event.loadCertFile, Event.getPEMExpiration certBytes])) ∧
    (expDaysOf t env.now ≤ renewDaysLimit →
      Event.genKey 2048 ∈ (renewCerts env).2) := by
  constructor
  · exact fun hgt => renewCerts_refuses env certBytes t hload hexp hgt
  · exact fun hle => (renewCerts_proceeds env certBytes t hload hexp hle).1

/-- Witness for C3: with 100 days remaining the call stops at the policy
error reporting 100 days; with 10 days remaining it reaches key
generation. -/
theorem renewCerts_policy_gate_witness :
    renewCerts (renewEnvAt (100 * nsPerDay)) =
      (.error (.policy 100),
        [Event.loadCertFile, Event.getPEMExpiration (("CERTPEM").data)]) ∧
    Event.genKey 2048 ∈ (renewCerts (renewEnvAt (10 * nsPerDay))).2 := by
  constructor
  · have h := (renewCerts_policy_gate (renewEnvAt (100 * nsPerDay)) (("CERTPEM").data)
      (100 * nsPerDay) rfl rfl).1 (by decide)
    have he : expDaysOf (100 * nsPerDay) (renewEnvAt (100 * nsPerDay)).now = 100 := by decide
    rw [he] at h
    exact h
  · exact (renewCerts_policy_gate (renewEnvAt (10 * nsPerDay)) (("CERTPEM").data)
      (10 * nsPerDay) rfl rfl).2 (by decide)

/-- C1 counterexample: with 10 days remaining and every collaborator call
succeeding, `renewCerts` performs the bundled renewal request without any
registration call and without any agreement-acceptance call,
contradicting the claim that a fresh account is registered and the
agreement re-accepted exactly as in issuance. -/
theorem renewCerts_no_reregistration :
    Event.renewCertificate { metaRes with certificate := ("CERTPEM").data } true ∈
        (renewCerts (renewEnvAt (10 * nsPerDay))).2 ∧
      Event.register ∉ (renewCerts (renewEnvAt (10 * nsPerDay))).2 ∧
      Event.agreeToTOS ∉ (renewCerts (renewEnvAt (10 * nsPerDay))).2 := by
  refine ⟨by decide, by decide, by decide⟩

/-- C1 (amended): for every call that passes the renewal policy gate,
`renewCerts` generates a fresh 2048-bit key pair and constructs a new
client session, but — unlike issuance — performs no new registration and
no new agreement acceptance; when key generation, client construction and
the metadata load succeed, the bundled renewal request follows these
steps. -/
theorem renewCerts_fresh_key_no_reregistration (env : RenewEnv) (certBytes : Str)
    (t : Int)
    (hload : env.loadCertResult = .ok certBytes)
    (hexp : env.pemExp certBytes = .ok t)
    (hle : expDaysOf t env.now ≤ renewDaysLimit) :
    Event.genKey 2048 ∈ (renewCerts env).2 ∧
    Event.register ∉ (renewCerts env).2 ∧
    Event.agreeToTOS ∉ (renewCerts env).2 ∧
    (∀ k m, env.genKeyResult = .ok k → env.newClientResult = .ok () →
      env.loadCertMetaResult = .ok m →
      (renewCerts env).2 =
        [Event.loadCertFile, Event.getPEMExpiration certBytes, Event.genKey 2048,
          Event.newClient 2048, Event.excludeChallenges [Challenge.dns01],
          Event.loadCertMetaFile,
          Event.renewCertificate { m with certificate := certBytes } true]) := by
  refine ⟨(renewCerts_proceeds env certBytes t hload hexp hle).1,
    (renewCerts_proceeds env certBytes t hload hexp hle).2.1,
    (renewCerts_proceeds env certBytes t hload hexp hle).2.2, ?_⟩
  intro k m hkey hcli hmeta
  exact renewCerts_exchange_trace env certBytes t k m hload hexp hle hkey hcli hmeta

/-- Witness for the amended C1 at 20 days remaining: the full trace shows
fresh key generation and client construction followed directly by the
bundled renewal, with no registration anywhere. -/
theorem renewCerts_fresh_key_no_reregistration_witness :
    Event.genKey 2048 ∈ (renewCerts (renewEnvAt (20 * nsPerDay))).2 ∧
    Event.register ∉ (renewCerts (renewEnvAt (20 * nsPerDay))).2 ∧
    (renewCerts (renewEnvAt (20 * nsPerDay))).2 =
      [Event.loadCertFile, Event.getPEMExpiration (("CERTPEM").data),
        Event.genKey 2048, Event.newClient 2048,
        Event.excludeChallenges [Challenge.dns01], Event.loadCertMetaFile,
        Event.renewCertificate { metaRes with certificate := ("CERTPEM").data } true] := by
  have h := renewCerts_fresh_key_no_reregistration (renewEnvAt (20 * nsPerDay))
    (("CERTPEM").data) (20 * nsPerDay) rfl rfl (by decide)
  exact ⟨h.1, h.2.1, h.2.2.2 1 metaRes rfl rfl rfl⟩

/-- C2 (code bug): when the loaded bytes are not a parseable PEM
certificate, `renewCerts` does not return the parse error.  The source
assigns the error of `acme.GetPEMCertExpiration` at line 148 but never
inspects it, computes the day count from the zero time, passes the policy
gate, and proceeds to the renewal network exchange. -/
theorem renewCerts_swallows_parse_failure :
    (renewCerts parseFailEnv).1 = .ok renewedRes ∧
    Event.renewCertificate { metaRes with certificate := ("NOTAPEM").data } true ∈
      (renewCerts parseFailEnv).2 := by
  exact ⟨rfl, by decide⟩

/-- C10 counterexample: with exactly 46 full days remaining — a duration
strictly more than 45 and at most 46 days — the truncated day count is 46,
not 45, and the policy gate refuses instead of letting renewal proceed. -/
theorem renewCerts_exact_46_days_refuses :
    expDaysOf (46 * nsPerDay) 0 = 46 ∧
    45 * nsPerDay < timeSub (46 * nsPerDay) 0 ∧
    timeSub (46 * nsPerDay) 0 ≤ 46 * nsPerDay ∧
    (renewCerts (renewEnvAt (46 * nsPerDay))).1 = .error (.policy 46) := by
  refine ⟨by decide, by decide, by decide, rfl⟩

/-- C10 (amended): `renewCerts` truncates the remaining duration toward
zero at day granularity, so a certificate with strictly more than 45 but
strictly fewer than 46 days remaining yields the value 45 and renewal
proceeds; the policy gate refuses — stopping before any network step —
exactly when the truncated day count is at least 46. -/
theorem renewCerts_day_truncation (env : RenewEnv) (certBytes : Str) (t : Int)
    (hload : env.loadCertResult = .ok certBytes)
    (hexp : env.pemExp certBytes = .ok t) :
    (45 * nsPerDay < timeSub t env.now → timeSub t env.now < 46 * nsPerDay →
      expDaysOf t env.now = 45 ∧ Event.genKey 2048 ∈ (renewCerts env).2) ∧
    (renewCerts env =
        (.error (.policy (expDaysOf t env.now)),
          [Event.loadCertFile, Event.getPEMExpiration certBytes]) ↔
      46 ≤ expDaysOf t env.now) := by
  constructor
  · intro h1 h2
    have h45 := expDaysOf_between t env.now h1 h2
    refine ⟨h45, ?_⟩
    have hle : expDaysOf t env.now ≤ renewDaysLimit := by
      rw [h45]; norm_num [renewDaysLimit]
    exact (renewCerts_proceeds env certBytes t hload hexp hle).1
  · constructor
    · intro heq
      by_contra hlt
      push_neg at hlt
      have hle : expDaysOf t env.now ≤ renewDaysLimit := by
        unfold renewDaysLimit; omega
      have hg := (renewCerts_proceeds env certBytes t hload hexp hle).1
      rw [heq] at hg
      simp at hg
    · intro h46
      have hgt : renewDaysLimit < expDaysOf t env.now := by
        unfold renewDaysLimit; omega
      exact renewCerts_refuses env certBytes t hload hexp hgt

/-- Witness for the amended C10 at 45 days and 23 hours remaining: the
truncated day count is 45 and renewal proceeds to key generation. -/
theorem renewCerts_day_truncation_witness :
    expDaysOf (45 * nsPerDay + 23 * nsPerHour) 0 = 45 ∧
    Event.genKey 2048 ∈
      (renewCerts (renewEnvAt (45 * nsPerDay + 23 * nsPerHour))).2 := by
  exact (renewCerts_day_truncation (renewEnvAt (45 * nsPerDay + 23 * nsPerHour))
    (("CERTPEM").data) (45 * nsPerDay + 23 * nsPerHour) rfl rfl).1
    (by decide) (by decide)

/-- C4: when at least one domain fails challenge validation, `genCerts`
returns the aggregate error holding the failed-domain list and the cause
list index-aligned (every failed domain paired with its own cause), every
failed domain and every cause appears in the rendered error message, and
no certificate resource is returned. -/
theorem genCerts_aggregate_failure (env : GenEnv) (email domain : Str)
    (subDomains : List Str) (k reg : Nat) (res : CertificateResource)
    (failures : List (Str × Str))
    (hkey : env.genKeyResult = .ok k)
    (hcli : env.newClientResult = .ok ())
    (hreg : env.registerResult = .ok reg)
    (hagr : env.agreeResult = .ok ())
    (hobt : env.obtainResult (buildDomains domain subDomains) true = (res, failures))
    (hne : failures ≠ []) :
    (genCerts env email domain subDomains).1 =
      .error (.obtainFailure (failures.map Prod.fst) (failures.map Prod.snd)) ∧
    (∀ i, i < failures.length →
      (failures.map Prod.fst)[i]? = failures[i]?.map Prod.fst ∧
      (failures.map Prod.snd)[i]? = failures[i]?.map Prod.snd) ∧
    (∀ df dc, (df, dc) ∈ failures →
      df <:+: obtainMessage (failures.map Prod.fst) (failures.map Prod.snd) ∧
      dc <:+: obtainMessage (failures.map Prod.fst) (failures.map Prod.snd)) := by
  refine ⟨?_, ?_, ?_⟩
  · unfold genCerts
    simp only [hkey, hcli, hreg, hagr, hobt]
    rw [if_pos (List.length_pos.mpr hne)]
  · intro i hi
    simp [List.getElem?_map]
  · intro df dc hmem
    exact ⟨infix_obtainMessage_domain (List.mem_map_of_mem Prod.fst hmem),
      infix_obtainMessage_cause (List.mem_map_of_mem Prod.snd hmem)⟩

/-- Witness for C4: two of three requested domains fail; the returned
error names both failed domains with both causes, index-aligned, and both
appear in the rendered message. -/
theorem genCerts_aggregate_failure_witness :
    (genCerts genFailEnv (("admin@example.com").data) (("example.com").data)
        [("www").data, ("api").data]).1 =
      .error (.obtainFailure
        [("www.example.com").data, ("api.example.com").data]
        [("challenge timed out").data, ("connection refused").data]) ∧
    ("www.example.com").data <:+:
      obtainMessage [("www.example.com").data, ("api.example.com").data]
        [("challenge timed out").data, ("connection refused").data] ∧
    ("connection refused").data <:+:
      obtainMessage [("www.example.com").data, ("api.example.com").data]
        [("challenge timed out").data, ("connection refused").data] := by
  have h := genCerts_aggregate_failure genFailEnv (("admin@example.com").data)
    (("example.com").data) [("www").data, ("api").data] 1 7 emptyRes
    [(("www.example.com").data, ("challenge timed out").data),
      (("api.example.com").data, ("connection refused").data)]
    rfl rfl rfl rfl rfl (by simp)
  refine ⟨h.1, ?_, ?_⟩
  · exact (h.2.2 (("www.example.com").data) (("challenge timed out").data)
      (by simp)).1
  · exact (h.2.2 (("api.example.com").data) (("connection refused").data)
      (by simp)).2

/-- C5: the domain set submitted by `genCerts` to the bundled certificate
request is exactly the primary domain when the primary has more than two
dot-separated labels, and otherwise the primary followed by each
subdomain concatenated to it with a dot, in the subdomain list's order. -/
theorem genCerts_domain_set (env : GenEnv) (email domain : Str)
    (subDomains : List Str) (k reg : Nat)
    (hkey : env.genKeyResult = .ok k)
    (hcli : env.newClientResult = .ok ())
    (hreg : env.registerResult = .ok reg)
    (hagr : env.agreeResult = .ok ()) :
    Event.obtainCertificate
      (if 2 < (goSplit '.' domain).length then [domain]
        else domain :: subDomains.map (fun s => s ++ '.' :: domain)) true ∈
      (genCerts env email domain subDomains).2 := by
  have hbd : buildDomains domain subDomains =
      (if 2 < (goSplit '.' domain).length then [domain]
        else domain :: subDomains.map (fun s => s ++ '.' :: domain)) := by
    unfold buildDomains isSubDomain
    by_cases h : 2 < (goSplit '.' domain).length
    · simp [h]
    · simp [h]
  rw [← hbd]
  unfold genCerts
  simp only [hkey, hcli, hreg, hagr]
  rcases hobt : env.obtainResult (buildDomains domain subDomains) true with ⟨r, failures⟩
  by_cases hf : failures.length > 0 <;> simp [hobt, hf]

/-- Witness for C5: `example.com` with subdomains `www` and `api` submits
the three-element set in order; `sub.example.com` (three labels) submits
only itself. -/
theorem genCerts_domain_set_witness :
    Event.obtainCertificate
        [("example.com").data, ("www.example.com").data, ("api.example.com").data]
        true ∈
      (genCerts genOkEnv (("admin@example.com").data) (("example.com").data)
        [("www").data, ("api").data]).2 ∧
    Event.obtainCertificate [("sub.example.com").data] true ∈
      (genCerts genOkEnv (("admin@example.com").data) (("sub.example.com").data)
        [("www").data, ("api").data]).2 := by
  constructor
  · exact genCerts_domain_set genOkEnv (("admin@example.com").data)
      (("example.com").data) [("www").data, ("api").data] 1 7 rfl rfl rfl rfl
  · exact genCerts_domain_set genOkEnv (("admin@example.com").data)
      (("sub.example.com").data) [("www").data, ("api").data] 1 7 rfl rfl rfl rfl

/-- C8: `saveCerts` writes the certificate-bytes file `public.crt`, then
the private-key file `private.key`, then the metadata file `certs.json`,
each with owner-only `0o600` permissions; the writes are not
transactional: when a later step fails the error is returned and every
file written earlier in the same call remains on disk in its new state. -/
theorem saveCerts_sequential_nontransactional (env : SaveEnv) (fs : FileSys)
    (cert : CertificateResource) :
    (∀ jsonBytes, env.writeOutcome publicCrtFile = none →
      env.writeOutcome privateKeyFile = none →
      env.marshalIndent cert = .ok jsonBytes →
      env.writeOutcome certsJsonFile = none →
      saveCerts env fs cert =
        (.ok (), fsWrite (fsWrite (fsWrite fs publicCrtFile cert.certificate 0o600)
          privateKeyFile cert.privateKey 0o600) certsJsonFile jsonBytes 0o600)) ∧
    (∀ jsonBytes e, env.writeOutcome publicCrtFile = none →
      env.writeOutcome privateKeyFile = none →
      env.marshalIndent cert = .ok jsonBytes →
      env.writeOutcome certsJsonFile = some e →
      (saveCerts env fs cert).1 = .error e ∧
      fsRead (saveCerts env fs cert).2 publicCrtFile =
        some (cert.certificate, 0o600) ∧
      fsRead (saveCerts env fs cert).2 privateKeyFile =
        some (cert.privateKey, 0o600) ∧
      fsRead (saveCerts env fs cert).2 certsJsonFile = fsRead fs certsJsonFile) ∧
    (∀ e, env.writeOutcome publicCrtFile = some e →
      saveCerts env fs cert = (.error e, fs)) ∧
    (∀ e, env.writeOutcome publicCrtFile = none →
      env.writeOutcome privateKeyFile = some e →
      saveCerts env fs cert =
        (.error e, fsWrite fs publicCrtFile cert.certificate 0o600)) := by
  refine ⟨?_, ?_, ?_, ?_⟩
  · intro jsonBytes h1 h2 h3 h4
    unfold saveCerts writeFile
    simp only [h1, h2, h3, h4]
  · intro jsonBytes e h1 h2 h3 h4
    have heq : saveCerts env fs cert =
        (.error e, fsWrite (fsWrite fs publicCrtFile cert.certificate 0o600)
          privateKeyFile cert.privateKey 0o600) := by
      unfold saveCerts writeFile
      simp only [h1, h2, h3, h4]
    rw [heq]
    refine ⟨rfl, ?_, ?_, ?_⟩
    · rw [fsRead_fsWrite_other _ _ _ _ _ (by decide), fsRead_fsWrite_same]
    · rw [fsRead_fsWrite_same]
    · rw [fsRead_fsWrite_other _ _ _ _ _ (by decide),
        fsRead_fsWrite_other _ _ _ _ _ (by decide)]
  · intro e h1
    unfold saveCerts writeFile
    simp only [h1]
  · intro e h1 h2
    unfold saveCerts writeFile
    simp only [h1, h2]

/-- Witness for C8: with every write succeeding the three files land with
`0o600` in write order; with the metadata write failing on a directory
holding an old metadata file, the error is returned while the freshly
written certificate and key remain and the metadata file keeps its old
content. -/
theorem saveCerts_sequential_nontransactional_witness :
    saveCerts saveOkEnv [] saveRes =
      (.ok (), fsWrite (fsWrite (fsWrite [] publicCrtFile (("CERT").data) 0o600)
        privateKeyFile (("KEY").data) 0o600) certsJsonFile (("jsonmeta").data) 0o600) ∧
    (saveCerts diskFullEnv oldFs saveRes).1 =
      .error (.writeFailure (("disk full").data)) ∧
    fsRead (saveCerts diskFullEnv oldFs saveRes).2 publicCrtFile =
      some ((("CERT").data), 0o600) ∧
    fsRead (saveCerts diskFullEnv oldFs saveRes).2 privateKeyFile =
      some ((("KEY").data), 0o600) ∧
    fsRead (saveCerts diskFullEnv oldFs saveRes).2 certsJsonFile =
      some ((("oldmeta").data), 384) := by
  have hok := (saveCerts_sequential_nontransactional saveOkEnv [] saveRes).1
    (("jsonmeta").data) rfl rfl rfl rfl
  have hfail := (saveCerts_sequential_nontransactional diskFullEnv oldFs saveRes).2.1
    (("jsonmeta").data) (.writeFailure (("disk full").data)) rfl rfl rfl rfl
  refine ⟨hok, hfail.1, hfail.2.1, hfail.2.2.1, ?_⟩
  rw [hfail.2.2.2]
  rfl

/-- C6 counterexample: a string of length 256 — 255 letters followed by a
space — is accepted by `isValidDomain`, because the source trims
whitespace before applying the length bound; the claim as stated requires
`false` for every string of length greater than 255. -/
theorem isValidDomain_length_256_accepted :
    (List.replicate 255 'a' ++ [' ']).length = 256 ∧
    goLen (List.replicate 255 'a' ++ [' ']) = 256 ∧
    isValidDomain (List.replicate 255 'a' ++ [' ']) = true := by
  refine ⟨by simp, by decide, by decide⟩

/-- C6 (amended): for every string whose whitespace-trimmed form has
UTF-8 byte length zero or greater than 255, `isValidDomain` returns
false — the source applies the emptiness and length bounds after
trimming. -/
theorem isValidDomain_trimmed_length (host : Str)
    (h : goLen (goTrimSpace host) = 0 ∨ 255 < goLen (goTrimSpace host)) :
    isValidDomain host = false := by
  simp only [isValidDomain]
  split_ifs with h1 h2 h3 h4 h5 <;> first | rfl | exact absurd h h1

/-- Witness for the amended C6: 256 letters (no whitespace to trim) are
rejected. -/
theorem isValidDomain_trimmed_length_witness :
    255 < goLen (goTrimSpace (List.replicate 256 'a')) ∧
    isValidDomain (List.replicate 256 'a') = false :=
  ⟨by decide, isValidDomain_trimmed_length (List.replicate 256 'a')
    (Or.inr (by decide))⟩

/-- C7 counterexample: a string of 128 two-byte characters has 128
characters but 256 UTF-8 bytes; the specification's character-counting
predicate accepts it while the source's byte-based length check rejects
it. -/
theorem isValidDomain_bytes_not_chars :
    (List.replicate 128 (Char.ofNat 233)).length = 128 ∧
    goLen (List.replicate 128 (Char.ofNat 233)) = 256 ∧
    specIsValidDomain (List.replicate 128 (Char.ofNat 233)) = true ∧
    isValidDomain (List.replicate 128 (Char.ofNat 233)) = false := by
  refine ⟨by simp, by decide, by decide, by decide⟩

/-- C7 (amended): for every string, `isValidDomain` trims surrounding
whitespace first and then returns false exactly when the trimmed string
is empty, longer than 255 UTF-8 bytes, starts or ends with a dash,
underscore or dot, or contains a forbidden character; otherwise it
returns true.  It is a total Lean function, hence pure and exception
free. -/
theorem isValidDomain_characterization (host : Str) :
    isValidDomain host = false ↔
      (goTrimSpace host = [] ∨ 255 < goLen (goTrimSpace host) ∨
        (goTrimSpace host).head? = some '-' ∨
        (goTrimSpace host).getLast? = some '-' ∨
        (goTrimSpace host).head? = some '_' ∨
        (goTrimSpace host).getLast? = some '_' ∨
        (goTrimSpace host).head? = some '.' ∨
        (goTrimSpace host).getLast? = some '.' ∨
        containsAny (goTrimSpace host) forbiddenHostChars = true) := by
  have hz := goLen_eq_zero (goTrimSpace host)
  simp only [isValidDomain]
  split_ifs with h1 h2 h3 h4 h5
  · exact iff_of_true rfl (by tauto)
  · exact iff_of_true rfl (by tauto)
  · exact iff_of_true rfl (by tauto)
  · exact iff_of_true rfl (by tauto)
  · exact iff_of_true rfl (by tauto)
  · exact iff_of_false (by simp) (by tauto)

/-- C9: `isSubDomain` splits its input on dots and answers whether the
resulting field count exceeds two; equivalently, the field count is
always the dot count plus one, so it answers whether the input contains
at least two dots.  It is a total Lean function, hence pure. -/
theorem isSubDomain_label_count (domain : Str) :
    (isSubDomain domain = true ↔ 2 < (goSplit '.' domain).length) ∧
    (goSplit '.' domain).length = domain.count '.' + 1 := by
  constructor
  · simp [isSubDomain]
  · exact goSplit_length '.' domain

end Concert
